import Mathlib

/-!
Verification of the Snap card-game engine (snap/cards.py, snap/player.py,
snap/simulator.py) against its natural-language specification.

Shallow embedding conventions:
* A Python list used as a stack is a Lean `List` in the same order: the top of
  a `CardStack` is the LAST element of its `cards` list (Python `list.pop()`
  and `list[-1]` work at the end of the list).
* Fallible operations (popping an empty stack, indexing) return `Option`.
* A Python dict keyed by player index is an association list in the dict's
  enumeration (= insertion) order.
* Mutation of the simulator's pile lists is explicit state passing:
  each operation returns the updated lists.
-/

namespace Snap

/-- Embeds `CardValue` (cards.py): the rank of a playing card. -/
inductive CardValue
  | ACE | TWO | THREE | FOUR | FIVE | SIX | SEVEN | EIGHT | NINE | TEN
  | JACK | QUEEN | KING
deriving DecidableEq, Repr

/-- Embeds `CardSuit` (cards.py). -/
inductive CardSuit
  | CLUB | HEART | SPADE | DIAMOND
deriving DecidableEq, Repr

/-- Embeds `Card` (cards.py): a value and a suit, compared structurally
(Python `@dataclass` equality). -/
structure Card where
  value : CardValue
  suit : CardSuit
deriving DecidableEq, Repr

/-- Embeds `CardStack` (cards.py): an ordered collection of cards.
`cards` is in Python list order, so the TOP of the stack is the last element. -/
structure CardStack where
  cards : List Card
deriving DecidableEq, Repr

/-- The empty stack, `CardStack()` in Python. -/
def emptyStack : CardStack := ⟨[]⟩

/-- Embeds `CardStack.pop` (cards.py line 64): remove the top card and return
it.  Python `list.pop()` raises on an empty list; that failure is `none`. -/
def CardStack.pop (s : CardStack) : Option (Card × CardStack) :=
  match s.cards.getLast? with
  | none => none
  | some c => some (c, ⟨s.cards.dropLast⟩)

/-- Embeds `CardStack.peek` (cards.py line 68): show the top card, `None`
(here `none`) when the stack is empty. -/
def CardStack.peek (s : CardStack) : Option Card :=
  s.cards.getLast?

/-- Embeds `CardStack.push` (cards.py line 74): add a card to the top. -/
def CardStack.push (s : CardStack) (c : Card) : CardStack :=
  ⟨s.cards ++ [c]⟩

/-- Embeds `CardStack.__add__` (cards.py line 85): merge two stacks,
left operand's cards first (`self._cards + other_stack._cards`). -/
def CardStack.add (a b : CardStack) : CardStack :=
  ⟨a.cards ++ b.cards⟩

/-- The number of cards in a stack, `len` in Python. -/
def CardStack.size (s : CardStack) : Nat :=
  s.cards.length

/-- The thirteen card values in `CardValue` declaration order. -/
def allValues : List CardValue :=
  [.ACE, .TWO, .THREE, .FOUR, .FIVE, .SIX, .SEVEN, .EIGHT, .NINE, .TEN,
   .JACK, .QUEEN, .KING]

/-- The four suits in `CardSuit` declaration order. -/
def allSuits : List CardSuit :=
  [.CLUB, .HEART, .SPADE, .DIAMOND]

/-- Embeds `CardStack.new_full_deck` (cards.py line 95): one card per
(value, suit) combination, suits outermost as in the Python comprehension. -/
def CardStack.new_full_deck : CardStack :=
  ⟨allSuits.flatMap (fun s => allValues.map (fun v => ⟨v, s⟩))⟩

/-- Helper for `find_pair`: the effect of `value_to_indices[card.value].append(i)`
on the `defaultdict(list)` viewed as an association list in insertion order.
If the value already has a group, the index is appended to it; otherwise a new
group is appended at the end (a Python dict enumerates keys in insertion
order). -/
def addIndex (acc : List (CardValue × List Nat)) (v : CardValue) (i : Nat) :
    List (CardValue × List Nat) :=
  match acc with
  | [] => [(v, [i])]
  | (w, is) :: rest =>
    if w = v then (w, is ++ [i]) :: rest else (w, is) :: addIndex rest v i

/-- Embeds the `value_to_indices` dict built by `find_pair` (cards.py lines
110-113): for each entry of the player-cards mapping in enumeration order,
append its index to the group of its card value. -/
def valueToIndices (l : List (Nat × Card)) : List (CardValue × List Nat) :=
  l.foldl (fun acc e => addIndex acc e.2.value e.1) []

/-- Embeds the result loop of `find_pair` (cards.py lines 115-119): return the
first two indices of the first group holding more than one index. -/
def firstPair : List (CardValue × List Nat) → Option (List Nat)
  | [] => none
  | (_, is) :: rest =>
    if 1 < is.length then some (is.take 2) else firstPair rest

/-- Embeds `find_pair` (cards.py line 103): the first two player indices whose
cards share a value, or `none`.  The input mapping is an association list in
the Python dict's enumeration order. -/
def find_pair (l : List (Nat × Card)) : Option (List Nat) :=
  firstPair (valueToIndices l)

/-- Embeds the Arbiter-owned per-player fields of `Player` (player.py):
`player_id` and `still_in_game`.  The piles live in the simulator. -/
structure PlayerState where
  player_id : Nat
  still_in_game : Bool
deriving DecidableEq, Repr

/-- Embeds `PlayerMessageType` (player.py). -/
inductive PlayerMessageType
  | SNAP | NO_SNAP
deriving DecidableEq, Repr

/-- Embeds `PlayerMessage` (player.py): sent from a player to the server. -/
structure PlayerMessage where
  player_id : Nat
  message_type : PlayerMessageType
deriving DecidableEq, Repr

/-- Embeds `ServerMessageType` (player.py). -/
inductive ServerMessageType
  | TURN | PLAYER_OUT | END_GAME
deriving DecidableEq, Repr

/-- Embeds `ServerMessage` (player.py): `cards` defaults to `None`, and a
TURN message carries the visible cards (`cards.values()` in
`gather_responses`). -/
structure ServerMessage where
  message_type : ServerMessageType
  cards : Option (List Card) := none
deriving DecidableEq, Repr

/-- Embeds one iteration of the body of `Player.run` (player.py lines 96-126)
as a pure step: given the decision policy (`should_call_snap`), the player's
state and the received message, it returns the player's state after the
iteration, the message the player enqueues on the snap queue (if any), and
whether the loop continues. -/
def runStep (should_call_snap : List Card → Bool) (s : PlayerState)
    (m : ServerMessage) : PlayerState × Option PlayerMessage × Bool :=
  match m.message_type with
  | .END_GAME => ({ s with still_in_game := false }, none, false)
  | .PLAYER_OUT => ({ s with still_in_game := false }, none, false)
  | .TURN =>
    if should_call_snap (m.cards.getD []) then
      (s, some ⟨s.player_id, .SNAP⟩, true)
    else
      (s, some ⟨s.player_id, .NO_SNAP⟩, true)

/-- Embeds `players_still_in` (simulator.py line 127): the players whose
`still_in_game` flag is true, in player-list order. -/
def playersStillIn (ps : List PlayerState) : List PlayerState :=
  ps.filter (fun p => p.still_in_game)

/-- Embeds the selection `players_still_in[self.turn_count % len(players_still_in)]`
(simulator.py lines 128-130).  Python raises when no player is still in
(division by zero); that failure is `none`. -/
def actingPlayer (ps : List PlayerState) (turn_count : Nat) : Option PlayerState :=
  (playersStillIn ps).get? (turn_count % (playersStillIn ps).length)

/-- Embeds the `cards` dict built by `turn_over_new_card` (simulator.py lines
132-143): for each up pile with at least one card, in index order, its index
mapped to its top card. -/
def visibleCards (ups : List CardStack) : List (Nat × Card) :=
  ups.enum.filterMap (fun e => (e.2.peek).map (fun c => (e.1, c)))

/-- Embeds the pile updates of `turn_over_new_card` (simulator.py lines
120-154) for a given acting player index: if the index addresses an up pile,
one card is popped from that player's down pile (failure — Python
`IndexError` on an empty list — is `none`) and pushed onto their up pile; all
other piles are untouched.  Returns the updated up piles, the updated down
piles and the visible-card mapping read after the update. -/
def turn_over_new_card (ups downs : List CardStack) (acting : Nat) :
    Option (List CardStack × List CardStack × List (Nat × Card)) :=
  if acting < ups.length then
    match (downs.getD acting emptyStack).pop with
    | none => none
    | some (c, d) =>
      let ups2 := ups.set acting ((ups.getD acting emptyStack).push c)
      let downs2 := downs.set acting d
      some (ups2, downs2, visibleCards ups2)
  else
    some (ups, downs, visibleCards ups)

/-- Embeds `resolve_snap_decision_correct` (simulator.py lines 199-216): the
two indexed up piles are concatenated into `victory_cards`, both are replaced
by fresh empty stacks, and the snapping player's down pile becomes
`down + victory_cards` (`CardStack.__add__`, left operand first). -/
def resolve_snap_decision_correct (ups downs : List CardStack)
    (i0 i1 player_id : Nat) : List CardStack × List CardStack :=
  let victory := (ups.getD i0 emptyStack).add (ups.getD i1 emptyStack)
  let ups2 := (ups.set i0 emptyStack).set i1 emptyStack
  (ups2, downs.set player_id ((downs.getD player_id emptyStack).add victory))

/-- Embeds `resolve_snap_decision_incorrect` (simulator.py lines 218-236):
when the mistaken player's down pile is empty nothing changes; otherwise one
card is popped from it and pushed onto the down pile of the receiving player
(chosen in the source by `random.choice` among the other players still in,
modelled here as the explicit argument `recv`). -/
def resolve_snap_decision_incorrect (ups downs : List CardStack)
    (player_id recv : Nat) : List CardStack × List CardStack :=
  match (downs.getD player_id emptyStack).pop with
  | none => (ups, downs)
  | some (c, d) =>
    let downs2 := downs.set player_id d
    (ups, downs2.set recv ((downs2.getD recv emptyStack).push c))

/-- Embeds `resolve_snap_decision` (simulator.py lines 189-197): dispatch on
`find_pair` over the visible-card mapping. -/
def resolve_snap_decision (cards : List (Nat × Card)) (ups downs : List CardStack)
    (player_id recv : Nat) : List CardStack × List CardStack :=
  match find_pair cards with
  | some is => resolve_snap_decision_correct ups downs (is.getD 0 0) (is.getD 1 0) player_id
  | none => resolve_snap_decision_incorrect ups downs player_id recv

/-- Embeds an actor as the Arbiter sees it in `gather_responses`: its id, its
`still_in_game` flag, and the contents of its inbound `turn_queue`. -/
structure Actor where
  player_id : Nat
  still_in_game : Bool
  turn_queue : List ServerMessage
deriving DecidableEq, Repr

/-- Embeds the broadcast loop of `gather_responses` (simulator.py lines
162-166): `for player in self.players: player.turn_queue.put_nowait(TURN)` —
a TURN message carrying the visible cards is appended to the inbound queue of
every player in the list. -/
def broadcastTurn (actors : List Actor) (cards : List (Nat × Card)) : List Actor :=
  actors.map (fun a =>
    { a with turn_queue := a.turn_queue ++
        [{ message_type := .TURN, cards := some (cards.map Prod.snd) }] })

/-- Embeds the dealer deck of `start_game` (simulator.py lines 277-280):
`sum((new_full_deck() for _ in range(num_decks)), start=CardStack())`, a left
fold of `CardStack.__add__` over `num_decks` full decks. -/
def dealerCards (num_decks : Nat) : CardStack :=
  (List.replicate num_decks CardStack.new_full_deck).foldl CardStack.add emptyStack

/-- One step of the dealing loop of `start_game` (simulator.py lines 293-294):
card number `i` of the shuffled deck is pushed onto down pile `i % num_players`. -/
def dealStep (num_players : Nat) (piles : List CardStack) (e : Nat × Card) :
    List CardStack :=
  piles.set (e.1 % num_players) ((piles.getD (e.1 % num_players) emptyStack).push e.2)

/-- Embeds the dealing loop of `start_game` (simulator.py lines 285-294):
starting from `num_players` fresh empty down piles, push each card of the
(already shuffled) dealer deck round-robin. -/
def deal (cards : List Card) (num_players : Nat) : List CardStack :=
  cards.enum.foldl (dealStep num_players) (List.replicate num_players emptyStack)

/-- The total number of cards held across a list of piles. -/
def totalSize (piles : List CardStack) : Nat :=
  (piles.map (fun s => s.cards.length)).sum

/-! ### Helper lemmas about lists of piles -/

theorem getD_set_self {α : Type} (l : List α) (i : Nat) (x d : α)
    (h : i < l.length) : (l.set i x).getD i d = x := by
  induction l generalizing i with
  | nil => simp at h
  | cons a t ih =>
    cases i with
    | zero => rfl
    | succ j => exact ih j (Nat.lt_of_succ_lt_succ h)

theorem getD_set_ne {α : Type} (l : List α) (i j : Nat) (x d : α)
    (h : i ≠ j) : (l.set i x).getD j d = l.getD j d := by
  induction l generalizing i j with
  | nil => simp [List.set]
  | cons a t ih =>
    cases i with
    | zero =>
      cases j with
      | zero => exact absurd rfl h
      | succ k => rfl
    | succ i2 =>
      cases j with
      | zero => rfl
      | succ k => exact ih i2 k (fun hk => h (by rw [hk]))

theorem getD_default_of_le {α : Type} (l : List α) (i : Nat) (d : α)
    (h : l.length ≤ i) : l.getD i d = d := by
  induction l generalizing i with
  | nil => simp [List.getD]
  | cons a t ih =>
    cases i with
    | zero => simp at h
    | succ j => exact ih j (Nat.le_of_succ_le_succ h)

theorem totalSize_cons (s : CardStack) (t : List CardStack) :
    totalSize (s :: t) = s.size + totalSize t := by
  simp [totalSize, CardStack.size]

theorem totalSize_set (l : List CardStack) (i : Nat) (x : CardStack)
    (h : i < l.length) :
    totalSize (l.set i x) + (l.getD i emptyStack).size
      = totalSize l + x.size := by
  induction l generalizing i with
  | nil => simp at h
  | cons s t ih =>
    cases i with
    | zero =>
      simp only [List.set, List.getD, List.get?, totalSize_cons, Option.getD_some]
      omega
    | succ j =>
      have := ih j (Nat.lt_of_succ_lt_succ h)
      simp only [List.set, List.getD, List.get?, totalSize_cons] at *
      omega

theorem push_size (s : CardStack) (c : Card) : (s.push c).size = s.size + 1 := by
  simp [CardStack.push, CardStack.size]

theorem add_size (a b : CardStack) : (a.add b).size = a.size + b.size := by
  simp [CardStack.add, CardStack.size]

theorem emptyStack_size : emptyStack.size = 0 := rfl

theorem pop_eq_none_iff (s : CardStack) : s.pop = none ↔ s.cards = [] := by
  rcases s with ⟨cs⟩
  rcases List.eq_nil_or_concat cs with rfl | ⟨as, a, rfl⟩
  · simp [CardStack.pop]
  · simp [CardStack.pop, List.getLast?_concat]

theorem pop_concat (as : List Card) (a : Card) :
    CardStack.pop ⟨as ++ [a]⟩ = some (a, ⟨as⟩) := by
  simp [CardStack.pop, List.getLast?_concat, List.dropLast_concat]

/-! ### C4: popping a stack -/

/-- Claim C4: for every empty `CardStack`, `pop` fails (the `EmptyStackError`
of the spec, modelled as `none`); for every non-empty `CardStack`, `pop`
removes and returns the top card: it yields the card `peek` shows, and the
remaining stack is the original without its last (top) element. -/
theorem pop_spec :
    (∀ s : CardStack, s.cards = [] → s.pop = none) ∧
    (∀ s : CardStack, s.cards ≠ [] →
      ∃ c t, s.pop = some (c, t) ∧ s.peek = some c ∧ t.cards ++ [c] = s.cards) := by
  constructor
  · intro s h
    exact (pop_eq_none_iff s).mpr h
  · intro s h
    rcases s with ⟨cs⟩
    rcases List.eq_nil_or_concat cs with rfl | ⟨as, a, rfl⟩
    · exact absurd rfl h
    · simp only [List.concat_eq_append]
      exact ⟨a, ⟨as⟩, pop_concat as a,
        by simp [CardStack.peek, List.getLast?_concat], rfl⟩

/-- Witness for C4 at concrete stacks: the empty stack and a one-card stack. -/
theorem pop_spec_witness :
    CardStack.pop ⟨[]⟩ = none ∧
    ∃ c t, CardStack.pop ⟨[⟨.ACE, .SPADE⟩]⟩ = some (c, t) ∧
      CardStack.peek ⟨[⟨.ACE, .SPADE⟩]⟩ = some c ∧
      t.cards ++ [c] = [⟨.ACE, .SPADE⟩] :=
  ⟨pop_spec.1 ⟨[]⟩ rfl, pop_spec.2 ⟨[⟨.ACE, .SPADE⟩]⟩ (by decide)⟩

/-! ### C10: concatenation puts the right operand on top -/

/-- Claim C10 counterexample: with `A = B = [TWO HEART]`, `B` is non-empty and
the top of `A + B` is a card of `A` (cards compare structurally, so the same
card value can occur in both operands); the claim's final clause fails. -/
theorem add_top_can_repeat_left_card :
    (CardStack.add ⟨[⟨.TWO, .HEART⟩]⟩ ⟨[⟨.TWO, .HEART⟩]⟩).peek
      = some ⟨.TWO, .HEART⟩ ∧
    (⟨.TWO, .HEART⟩ : Card) ∈ (⟨[⟨.TWO, .HEART⟩]⟩ : CardStack).cards ∧
    (⟨[⟨.TWO, .HEART⟩]⟩ : CardStack).cards ≠ [] := by
  refine ⟨by decide, by decide, by decide⟩

/-- Claim C10 (amended): for all stacks `A` and `B` with `B` non-empty,
`peek (A + B) = peek B` — the top of `A + B` is the top card of the right
operand `B` (though its card value may also occur in `A`) — and pushing a card
onto any stack makes that card the result of the next `peek` and `pop`, with
`pop` restoring the original stack. -/
theorem add_peek_push_pop_spec :
    (∀ a b : CardStack, b.cards ≠ [] → (a.add b).peek = b.peek) ∧
    (∀ (s : CardStack) (c : Card),
      (s.push c).peek = some c ∧ (s.push c).pop = some (c, s)) := by
  constructor
  · intro a b h
    simp [CardStack.add, CardStack.peek, List.getLast?_append_of_ne_nil _ h]
  · intro s c
    refine ⟨by simp [CardStack.push, CardStack.peek, List.getLast?_concat], ?_⟩
    show CardStack.pop ⟨s.cards ++ [c]⟩ = some (c, s)
    rw [pop_concat]

/-- Witness for C10 at concrete stacks. -/
theorem add_peek_push_pop_witness :
    (CardStack.add ⟨[⟨.ACE, .CLUB⟩]⟩ ⟨[⟨.KING, .HEART⟩]⟩).peek
      = CardStack.peek ⟨[⟨.KING, .HEART⟩]⟩ ∧
    (CardStack.push ⟨[]⟩ ⟨.ACE, .CLUB⟩).peek = some ⟨.ACE, .CLUB⟩ ∧
    (CardStack.push ⟨[]⟩ ⟨.ACE, .CLUB⟩).pop = some (⟨.ACE, .CLUB⟩, ⟨[]⟩) :=
  ⟨add_peek_push_pop_spec.1 ⟨[⟨.ACE, .CLUB⟩]⟩ ⟨[⟨.KING, .HEART⟩]⟩ (by decide),
   (add_peek_push_pop_spec.2 ⟨[]⟩ ⟨.ACE, .CLUB⟩).1,
   (add_peek_push_pop_spec.2 ⟨[]⟩ ⟨.ACE, .CLUB⟩).2⟩

/-! ### C6: what the player run loop mutates -/

/-- Claim C6 counterexample: processing a PLAYER_OUT message, the player
actor's own run loop sets its `still_in_game` field from `true` to `false`
(player.py line 105), so the loop does mutate a player-state field itself. -/
theorem run_loop_sets_still_in_game_false :
    (runStep (fun _ => false) ⟨7, true⟩ ⟨.PLAYER_OUT, none⟩).1.still_in_game = false ∧
    (⟨7, true⟩ : PlayerState).still_in_game = true := by
  exact ⟨rfl, rfl⟩

/-- Claim C6 (amended): the player run loop never mutates `player_id`, and it
never touches any card pile (piles are not part of the player actor's state at
all — they live in the simulator); `still_in_game` is monotonic true-to-false,
but it is the loop itself that sets it to `false` when it processes PLAYER_OUT
or END_GAME, and a TURN message leaves the whole player state unchanged. -/
theorem run_loop_mutation_spec :
    ∀ (d : List Card → Bool) (s : PlayerState) (m : ServerMessage),
      (runStep d s m).1.player_id = s.player_id ∧
      ((runStep d s m).1.still_in_game = true → s.still_in_game = true) ∧
      (m.message_type = .TURN → (runStep d s m).1 = s) ∧
      ((m.message_type = .PLAYER_OUT ∨ m.message_type = .END_GAME) →
        (runStep d s m).1 = { s with still_in_game := false }) := by
  intro d s m
  rcases m with ⟨mt, mc⟩
  cases mt
  · by_cases hd : d (mc.getD [])
    · exact ⟨by simp [runStep, hd], by simp [runStep, hd], fun _ => by simp [runStep, hd],
        fun h => by rcases h with h | h <;> exact absurd h (by simp)⟩
    · exact ⟨by simp [runStep, hd], by simp [runStep, hd], fun _ => by simp [runStep, hd],
        fun h => by rcases h with h | h <;> exact absurd h (by simp)⟩
  · exact ⟨rfl, by intro h; exact absurd h (by simp [runStep]), by intro h; exact absurd h (by simp),
      fun _ => rfl⟩
  · exact ⟨rfl, by intro h; exact absurd h (by simp [runStep]), by intro h; exact absurd h (by simp),
      fun _ => rfl⟩

/-- Witness for C6 at a concrete state and message. -/
theorem run_loop_mutation_witness :
    (runStep (fun _ => true) ⟨3, true⟩ ⟨.TURN, some []⟩).1.player_id = 3 ∧
    ((runStep (fun _ => true) ⟨3, true⟩ ⟨.TURN, some []⟩).1.still_in_game = true →
      (⟨3, true⟩ : PlayerState).still_in_game = true) ∧
    (runStep (fun _ => true) ⟨3, true⟩ ⟨.TURN, some []⟩).1 = ⟨3, true⟩ :=
  ⟨(run_loop_mutation_spec (fun _ => true) ⟨3, true⟩ ⟨.TURN, some []⟩).1,
   (run_loop_mutation_spec (fun _ => true) ⟨3, true⟩ ⟨.TURN, some []⟩).2.1,
   (run_loop_mutation_spec (fun _ => true) ⟨3, true⟩ ⟨.TURN, some []⟩).2.2.1 rfl⟩

/-! ### C7: who receives the TURN broadcast -/

/-- Claim C7 counterexample: broadcasting a turn with one active and one
inactive actor, the inactive actor (still_in_game = false) also gets the TURN
message appended to its inbound queue (`gather_responses` iterates over
`self.players`, not over the active ones). -/
theorem broadcast_turn_reaches_inactive_actor :
    (broadcastTurn [⟨0, true, []⟩, ⟨1, false, []⟩] [(0, ⟨.TWO, .HEART⟩)]).getD 1
        ⟨99, false, []⟩
      = ⟨1, false, [{ message_type := .TURN, cards := some [⟨.TWO, .HEART⟩] }]⟩ ∧
    (⟨1, false, []⟩ : Actor).still_in_game = false := by
  exact ⟨rfl, rfl⟩

/-- Claim C7 (amended): when a turn is broadcast, the TURN message carrying
the visible cards is appended to the inbound queue of EVERY actor in the
player list — whether its `still_in_game` flag is true or false — and nothing
else about any actor changes. -/
theorem broadcast_turn_spec :
    ∀ (actors : List Actor) (cards : List (Nat × Card)),
      (broadcastTurn actors cards).length = actors.length ∧
      ∀ i : Nat,
        (broadcastTurn actors cards).get? i =
          (actors.get? i).map (fun a =>
            { a with turn_queue := a.turn_queue ++
                [{ message_type := .TURN, cards := some (cards.map Prod.snd) }] }) := by
  intro actors cards
  refine ⟨by simp [broadcastTurn], ?_⟩
  intro i
  simp [broadcastTurn, List.get?_map]

/-! ### C2: turn rotation -/

/-- Claim C2 counterexample: with players `[0,1,2]` all active, the turn with
`turn_count = 1` selects `players_still_in[1 % 3]`, which is player 1, not
player 0 (`start_game` initialises `turn_count` to 1, and
`turn_over_new_card` indexes by `turn_count % len`). -/
theorem turn_count_one_selects_player_one :
    actingPlayer [⟨0, true⟩, ⟨1, true⟩, ⟨2, true⟩] 1 = some ⟨1, true⟩ ∧
    actingPlayer [⟨0, true⟩, ⟨1, true⟩, ⟨2, true⟩] 1 ≠ some ⟨0, true⟩ := by
  exact ⟨by decide, by decide⟩

/-- Claim C2 (amended): with players `[0,1,2]` all active, the turn with
`turn_count = 1` draws for player 1 and `turn_count = 2` for player 2
(`turn_count = 3` wraps to player 0); after player 1 is eliminated the
rotation `active_players[turn_count mod len(active_players)]` only ever
selects the surviving players 0 and 2 under their original ids — the
eliminated index is skipped without renumbering. -/
theorem turn_rotation_mod_active :
    actingPlayer [⟨0, true⟩, ⟨1, true⟩, ⟨2, true⟩] 1 = some ⟨1, true⟩ ∧
    actingPlayer [⟨0, true⟩, ⟨1, true⟩, ⟨2, true⟩] 2 = some ⟨2, true⟩ ∧
    actingPlayer [⟨0, true⟩, ⟨1, true⟩, ⟨2, true⟩] 3 = some ⟨0, true⟩ ∧
    (∀ t : Nat,
      actingPlayer [⟨0, true⟩, ⟨1, false⟩, ⟨2, true⟩] t = some ⟨0, true⟩ ∨
      actingPlayer [⟨0, true⟩, ⟨1, false⟩, ⟨2, true⟩] t = some ⟨2, true⟩) ∧
    actingPlayer [⟨0, true⟩, ⟨1, false⟩, ⟨2, true⟩] 2 = some ⟨0, true⟩ ∧
    actingPlayer [⟨0, true⟩, ⟨1, false⟩, ⟨2, true⟩] 3 = some ⟨2, true⟩ := by
  refine ⟨by decide, by decide, by decide, ?_, by decide, by decide⟩
  intro t
  have h2 : playersStillIn [⟨0, true⟩, ⟨1, false⟩, ⟨2, true⟩]
      = [⟨0, true⟩, ⟨2, true⟩] := by decide
  rcases Nat.mod_two_eq_zero_or_one t with h | h
  · left
    simp [actingPlayer, h2, h]
  · right
    simp [actingPlayer, h2, h]

/-! ### C5: the reveal step of a turn -/

/-- Claim C5 counterexample: when the acting player's down pile is empty the
reveal step FAILS (the source pops the acting player's down pile
unconditionally, simulator.py line 136, and popping an empty Python list
raises), instead of leaving the piles unchanged. -/
theorem reveal_step_fails_on_empty_down :
    turn_over_new_card [emptyStack, emptyStack] [emptyStack, ⟨[⟨.ACE, .SPADE⟩]⟩] 0
      = none ∧
    (([emptyStack, ⟨[⟨.ACE, .SPADE⟩]⟩] : List CardStack).getD 0 emptyStack).cards
      = [] := by
  exact ⟨by decide, rfl⟩

/-- Claim C5 (amended): in the reveal step, if the acting player's down pile
is non-empty one card is popped from it and pushed onto their up pile (all
other piles untouched, and the visible mapping is read after the update); if
the acting player's down pile is empty the step FAILS — the pop is
unconditional, so the empty case is the `EmptyStackError` invariant violation
of the spec, not a no-op. -/
theorem reveal_step_spec :
    ∀ (ups downs : List CardStack) (a : Nat), a < ups.length →
      ((downs.getD a emptyStack).cards = [] → turn_over_new_card ups downs a = none) ∧
      (∀ (cs : List Card) (c : Card), (downs.getD a emptyStack).cards = cs ++ [c] →
        turn_over_new_card ups downs a =
          some (ups.set a ((ups.getD a emptyStack).push c), downs.set a ⟨cs⟩,
            visibleCards (ups.set a ((ups.getD a emptyStack).push c)))) := by
  intro ups downs a ha
  constructor
  · intro h
    have hpop : (downs.getD a emptyStack).pop = none :=
      (pop_eq_none_iff _).mpr h
    unfold turn_over_new_card
    rw [if_pos ha, hpop]
  · intro cs c h
    have hpop : (downs.getD a emptyStack).pop = some (c, ⟨cs⟩) := by
      have hd2 : downs.getD a emptyStack = ⟨cs ++ [c]⟩ := by
        cases hd : downs.getD a emptyStack
        rw [hd] at h
        simpa using h
      rw [hd2, pop_concat]
    unfold turn_over_new_card
    rw [if_pos ha, hpop]

/-- Witness for C5: a two-player state where the acting player's down pile
holds one card; the reveal moves it onto the acting player's up pile. -/
theorem reveal_step_witness :
    turn_over_new_card [⟨[]⟩, ⟨[]⟩] [⟨[⟨.ACE, .SPADE⟩]⟩, ⟨[]⟩] 0
      = some ([⟨[⟨.ACE, .SPADE⟩]⟩, ⟨[]⟩], [⟨[]⟩, ⟨[]⟩], [(0, ⟨.ACE, .SPADE⟩)]) := by
  have h := (reveal_step_spec [⟨[]⟩, ⟨[]⟩] [⟨[⟨.ACE, .SPADE⟩]⟩, ⟨[]⟩] 0
    (by decide)).2 [] ⟨.ACE, .SPADE⟩ (by decide)
  simpa using h

/-! ### C1: resolving a correct snap -/

/-- Claim C1 counterexample: resolving the spec's correct-snap scenario (up
piles `[TWO HEART]`, `[TWO CLUB]`, `[THREE CLUB]`, snap by player 2 whose down
pile holds one ace), the transferred cards end up ON TOP of the snapping
player's down pile (`down + victory` appends them at the top end), not at the
bottom: the resulting pile is not `victory ++ old`. -/
theorem correct_snap_lands_on_top :
    ((resolve_snap_decision
        [(0, ⟨.TWO, .HEART⟩), (1, ⟨.TWO, .CLUB⟩), (2, ⟨.THREE, .CLUB⟩)]
        [⟨[⟨.TWO, .HEART⟩]⟩, ⟨[⟨.TWO, .CLUB⟩]⟩, ⟨[⟨.THREE, .CLUB⟩]⟩]
        [⟨[]⟩, ⟨[]⟩, ⟨[⟨.ACE, .SPADE⟩]⟩] 2 0).2.getD 2 emptyStack).cards
      = [⟨.ACE, .SPADE⟩, ⟨.TWO, .HEART⟩, ⟨.TWO, .CLUB⟩] ∧
    ([⟨.ACE, .SPADE⟩, ⟨.TWO, .HEART⟩, ⟨.TWO, .CLUB⟩] : List Card)
      ≠ [⟨.TWO, .HEART⟩, ⟨.TWO, .CLUB⟩] ++ [⟨.ACE, .SPADE⟩] := by
  exact ⟨by decide, by decide⟩

/-- Claim C1 (amended): when the visible-card mapping contains a pair
(`find_pair` returns two distinct indices), the two paired players' up piles
are concatenated and transferred to the TOP of the snapping player's down
pile (`down + up[i0] + up[i1]`), both paired players' up piles become empty,
every other up pile and down pile is untouched, and the snapping player's
down pile grows by exactly the number of transferred cards. -/
theorem correct_snap_resolution_spec :
    ∀ (cards : List (Nat × Card)) (ups downs : List CardStack)
      (pid recv i0 i1 : Nat),
      find_pair cards = some [i0, i1] →
      i0 ≠ i1 → i0 < ups.length → i1 < ups.length → pid < downs.length →
      ((resolve_snap_decision cards ups downs pid recv).1.getD i0 emptyStack
          = emptyStack ∧
       (resolve_snap_decision cards ups downs pid recv).1.getD i1 emptyStack
          = emptyStack) ∧
      (∀ j : Nat, j ≠ i0 → j ≠ i1 →
        (resolve_snap_decision cards ups downs pid recv).1.getD j emptyStack
          = ups.getD j emptyStack) ∧
      (resolve_snap_decision cards ups downs pid recv).2.getD pid emptyStack
        = (downs.getD pid emptyStack).add
            ((ups.getD i0 emptyStack).add (ups.getD i1 emptyStack)) ∧
      (∀ j : Nat, j ≠ pid →
        (resolve_snap_decision cards ups downs pid recv).2.getD j emptyStack
          = downs.getD j emptyStack) ∧
      ((resolve_snap_decision cards ups downs pid recv).2.getD pid emptyStack).size
        = (downs.getD pid emptyStack).size
          + ((ups.getD i0 emptyStack).size + (ups.getD i1 emptyStack).size) := by
  intro cards ups downs pid recv i0 i1 hfp hne h0 h1 hp
  have hr : resolve_snap_decision cards ups downs pid recv
      = resolve_snap_decision_correct ups downs i0 i1 pid := by
    simp [resolve_snap_decision, hfp]
  rw [hr]
  unfold resolve_snap_decision_correct
  have h1s : i1 < (ups.set i0 emptyStack).length := by
    simpa using h1
  refine ⟨⟨?_, ?_⟩, ?_, ?_, ?_, ?_⟩
  · rw [getD_set_ne _ i1 i0 _ _ (Ne.symm hne),
      getD_set_self _ i0 _ _ h0]
  · rw [getD_set_self _ i1 _ _ h1s]
  · intro j hj0 hj1
    rw [getD_set_ne _ i1 j _ _ (Ne.symm hj1), getD_set_ne _ i0 j _ _ (Ne.symm hj0)]
  · rw [getD_set_self _ pid _ _ hp]
  · intro j hj
    rw [getD_set_ne _ pid j _ _ (Ne.symm hj)]
  · rw [getD_set_self _ pid _ _ hp, add_size, add_size]

/-- Witness for C1 at the spec's correct-snap scenario: up piles
`[TWO HEART]`, `[TWO CLUB]`, `[THREE CLUB]`, snap called by player 2. -/
theorem correct_snap_resolution_witness :
    ((resolve_snap_decision
        [(0, ⟨.TWO, .HEART⟩), (1, ⟨.TWO, .CLUB⟩), (2, ⟨.THREE, .CLUB⟩)]
        [⟨[⟨.TWO, .HEART⟩]⟩, ⟨[⟨.TWO, .CLUB⟩]⟩, ⟨[⟨.THREE, .CLUB⟩]⟩]
        [⟨[]⟩, ⟨[]⟩, ⟨[⟨.ACE, .SPADE⟩]⟩] 2 0).2.getD 2 emptyStack).size
      = (CardStack.size ⟨[⟨.ACE, .SPADE⟩]⟩)
        + (CardStack.size ⟨[⟨.TWO, .HEART⟩]⟩ + CardStack.size ⟨[⟨.TWO, .CLUB⟩]⟩) := by
  have h := (correct_snap_resolution_spec
    [(0, ⟨.TWO, .HEART⟩), (1, ⟨.TWO, .CLUB⟩), (2, ⟨.THREE, .CLUB⟩)]
    [⟨[⟨.TWO, .HEART⟩]⟩, ⟨[⟨.TWO, .CLUB⟩]⟩, ⟨[⟨.THREE, .CLUB⟩]⟩]
    [⟨[]⟩, ⟨[]⟩, ⟨[⟨.ACE, .SPADE⟩]⟩] 2 0 0 1
    (by decide) (by decide) (by decide) (by decide) (by decide)).2.2.2.2
  simpa using h

/-! ### C3: card conservation -/

theorem pop_some_size (s : CardStack) (c : Card) (d : CardStack)
    (h : s.pop = some (c, d)) : d.size + 1 = s.size := by
  rcases s with ⟨cs⟩
  rcases List.eq_nil_or_concat cs with rfl | ⟨as, a2, rfl⟩
  · simp [CardStack.pop] at h
  · simp only [List.concat_eq_append] at h ⊢
    rw [pop_concat] at h
    injection h with h2
    cases h2
    simp [CardStack.size]

theorem pop_some_index (downs : List CardStack) (a : Nat) (c : Card)
    (d : CardStack) (h : (downs.getD a emptyStack).pop = some (c, d)) :
    a < downs.length := by
  by_contra hge
  push_neg at hge
  rw [getD_default_of_le downs a emptyStack hge] at h
  simp [emptyStack, CardStack.pop] at h

theorem foldl_add_length :
    ∀ (l : List CardStack) (acc : CardStack),
      (l.foldl CardStack.add acc).cards.length
        = acc.cards.length + (l.map (fun s => s.cards.length)).sum := by
  intro l
  induction l with
  | nil => simp
  | cons s t ih =>
    intro acc
    rw [List.foldl_cons, ih]
    simp [CardStack.add]
    omega

theorem dealerCards_length (n : Nat) : (dealerCards n).cards.length = 52 * n := by
  unfold dealerCards
  rw [foldl_add_length]
  have hdeck : CardStack.new_full_deck.cards.length = 52 := by decide
  simp [List.map_replicate, hdeck, List.sum_replicate, emptyStack,
    Nat.mul_comm]

theorem deal_foldl_total :
    ∀ (es : List (Nat × Card)) (piles : List CardStack) (p : Nat),
      0 < p → piles.length = p →
      totalSize (es.foldl (dealStep p) piles) = totalSize piles + es.length := by
  intro es
  induction es with
  | nil => intro piles p hp hl; simp
  | cons e t ih =>
    intro piles p hp hl
    have hidx : e.1 % p < piles.length := by
      rw [hl]
      exact Nat.mod_lt _ hp
    have hset := totalSize_set piles (e.1 % p)
      ((piles.getD (e.1 % p) emptyStack).push e.2) hidx
    rw [push_size] at hset
    have hlen2 : (dealStep p piles e).length = p := by
      simp [dealStep, hl]
    rw [List.foldl_cons, ih (dealStep p piles e) p hp hlen2]
    have hds : totalSize (dealStep p piles e) = totalSize piles + 1 := by
      unfold dealStep
      omega
    rw [hds, List.length_cons]
    omega

theorem deal_total (cards : List Card) (p : Nat) (hp : 0 < p) :
    totalSize (deal cards p) = cards.length := by
  unfold deal
  rw [deal_foldl_total _ _ _ hp (by simp)]
  simp [totalSize, List.map_replicate, List.sum_replicate, emptyStack]

theorem conserve_turn_over (ups downs : List CardStack) (a : Nat)
    (r : List CardStack × List CardStack × List (Nat × Card))
    (h : turn_over_new_card ups downs a = some r) :
    totalSize r.1 + totalSize r.2.1 = totalSize ups + totalSize downs := by
  unfold turn_over_new_card at h
  by_cases ha : a < ups.length
  · rw [if_pos ha] at h
    cases hpop : (downs.getD a emptyStack).pop with
    | none => rw [hpop] at h; cases h
    | some cd =>
      obtain ⟨c, d⟩ := cd
      rw [hpop] at h
      injection h with h2
      subst h2
      have had : a < downs.length := pop_some_index downs a c d hpop
      have e1 := totalSize_set ups a ((ups.getD a emptyStack).push c) ha
      rw [push_size] at e1
      have e2 := totalSize_set downs a d had
      have e3 := pop_some_size _ _ _ hpop
      simp only []
      omega
  · rw [if_neg ha] at h
    injection h with h2
    subst h2
    rfl

theorem conserve_correct (ups downs : List CardStack) (i0 i1 pid : Nat)
    (h0 : i0 < ups.length) (h1 : i1 < ups.length) (hne : i0 ≠ i1)
    (hp : pid < downs.length) :
    totalSize (resolve_snap_decision_correct ups downs i0 i1 pid).1 +
      totalSize (resolve_snap_decision_correct ups downs i0 i1 pid).2
      = totalSize ups + totalSize downs := by
  unfold resolve_snap_decision_correct
  have e0 := totalSize_set ups i0 emptyStack h0
  have h1s : i1 < (ups.set i0 emptyStack).length := by simpa using h1
  have e1 := totalSize_set (ups.set i0 emptyStack) i1 emptyStack h1s
  rw [getD_set_ne _ i0 i1 _ _ hne] at e1
  have e2 := totalSize_set downs pid
    ((downs.getD pid emptyStack).add
      ((ups.getD i0 emptyStack).add (ups.getD i1 emptyStack))) hp
  rw [add_size, add_size] at e2
  rw [emptyStack_size] at e0 e1
  simp only []
  omega

theorem conserve_incorrect (ups downs : List CardStack) (pid recv : Nat)
    (hrecv : recv < downs.length) :
    totalSize (resolve_snap_decision_incorrect ups downs pid recv).1 +
      totalSize (resolve_snap_decision_incorrect ups downs pid recv).2
      = totalSize ups + totalSize downs := by
  unfold resolve_snap_decision_incorrect
  cases hpop : (downs.getD pid emptyStack).pop with
  | none => rfl
  | some cd =>
    obtain ⟨c, d⟩ := cd
    have had : pid < downs.length := pop_some_index downs pid c d hpop
    have e1 := totalSize_set downs pid d had
    have e3 := pop_some_size _ _ _ hpop
    have hrecv2 : recv < (downs.set pid d).length := by simpa using hrecv
    have e2 := totalSize_set (downs.set pid d) recv
      (((downs.set pid d).getD recv emptyStack).push c) hrecv2
    rw [push_size] at e2
    simp only []
    omega

/-- Claim C3: card conservation.  After dealing, the total number of cards
across all up and down piles equals `52 * num_decks` (the shuffled dealer deck
is any permutation of `num_decks` concatenated full decks, and the up piles
start empty), and each turn-loop operation — revealing a card, resolving a
correct snap (with `find_pair`-produced distinct in-range indices), resolving
an incorrect snap (with an in-range receiver) — preserves the total. -/
theorem card_conservation :
    (∀ (num_decks num_players : Nat) (sh : List Card), 0 < num_players →
      sh.Perm (dealerCards num_decks).cards →
      totalSize (List.replicate num_players emptyStack) +
        totalSize (deal sh num_players) = 52 * num_decks) ∧
    (∀ (ups downs : List CardStack) (a : Nat)
      (r : List CardStack × List CardStack × List (Nat × Card)),
      turn_over_new_card ups downs a = some r →
      totalSize r.1 + totalSize r.2.1 = totalSize ups + totalSize downs) ∧
    (∀ (ups downs : List CardStack) (i0 i1 pid : Nat),
      i0 < ups.length → i1 < ups.length → i0 ≠ i1 → pid < downs.length →
      totalSize (resolve_snap_decision_correct ups downs i0 i1 pid).1 +
        totalSize (resolve_snap_decision_correct ups downs i0 i1 pid).2
        = totalSize ups + totalSize downs) ∧
    (∀ (ups downs : List CardStack) (pid recv : Nat), recv < downs.length →
      totalSize (resolve_snap_decision_incorrect ups downs pid recv).1 +
        totalSize (resolve_snap_decision_incorrect ups downs pid recv).2
        = totalSize ups + totalSize downs) := by
  refine ⟨?_, ?_, ?_, ?_⟩
  · intro n p sh hp hperm
    rw [deal_total sh p hp, hperm.length_eq, dealerCards_length]
    simp [totalSize, List.map_replicate, List.sum_replicate, emptyStack]
  · exact conserve_turn_over
  · intro ups downs i0 i1 pid h0 h1 hne hp
    exact conserve_correct ups downs i0 i1 pid h0 h1 hne hp
  · intro ups downs pid recv h
    exact conserve_incorrect ups downs pid recv h

/-- Witness for C3 at concrete inputs: one deck dealt to two players, and
small concrete pile states for the three turn-loop operations. -/
theorem card_conservation_witness :
    (totalSize (List.replicate 2 emptyStack) +
      totalSize (deal (dealerCards 1).cards 2) = 52 * 1) ∧
    (totalSize ([⟨[⟨.ACE, .SPADE⟩]⟩] : List CardStack) + totalSize [⟨[]⟩]
      = totalSize ([⟨[]⟩] : List CardStack) + totalSize [⟨[⟨.ACE, .SPADE⟩]⟩]) ∧
    (totalSize (resolve_snap_decision_correct
        [⟨[⟨.TWO, .HEART⟩]⟩, ⟨[⟨.TWO, .CLUB⟩]⟩] [⟨[]⟩, ⟨[]⟩] 0 1 0).1 +
      totalSize (resolve_snap_decision_correct
        [⟨[⟨.TWO, .HEART⟩]⟩, ⟨[⟨.TWO, .CLUB⟩]⟩] [⟨[]⟩, ⟨[]⟩] 0 1 0).2
      = totalSize ([⟨[⟨.TWO, .HEART⟩]⟩, ⟨[⟨.TWO, .CLUB⟩]⟩] : List CardStack) +
        totalSize ([⟨[]⟩, ⟨[]⟩] : List CardStack)) ∧
    (totalSize (resolve_snap_decision_incorrect
        [⟨[]⟩, ⟨[]⟩] [⟨[⟨.ACE, .SPADE⟩]⟩, ⟨[]⟩] 0 1).1 +
      totalSize (resolve_snap_decision_incorrect
        [⟨[]⟩, ⟨[]⟩] [⟨[⟨.ACE, .SPADE⟩]⟩, ⟨[]⟩] 0 1).2
      = totalSize ([⟨[]⟩, ⟨[]⟩] : List CardStack) +
        totalSize ([⟨[⟨.ACE, .SPADE⟩]⟩, ⟨[]⟩] : List CardStack)) := by
  refine ⟨card_conservation.1 1 2 (dealerCards 1).cards (by decide) (List.Perm.refl _),
    ?_, card_conservation.2.2.1 _ _ 0 1 0 (by decide) (by decide) (by decide) (by decide),
    card_conservation.2.2.2 _ _ 0 1 (by decide)⟩
  exact card_conservation.2.1 [⟨[]⟩] [⟨[⟨.ACE, .SPADE⟩]⟩] 0
    ([⟨[⟨.ACE, .SPADE⟩]⟩], [⟨[]⟩], [(0, ⟨.ACE, .SPADE⟩)]) (by decide)

/-! ### C8: pair-detector examples -/

/-- Claim C8: `find_pair` returns `[0,1]` on `{0: TWO CLUB, 1: TWO SPADE}`,
`none` on `{0: TWO CLUB, 1: THREE SPADE}`, `none` on the empty mapping and on
every single-element mapping, and when three players share one value it
returns only the first two indices in enumeration order. -/
theorem find_pair_examples :
    find_pair [(0, ⟨.TWO, .CLUB⟩), (1, ⟨.TWO, .SPADE⟩)] = some [0, 1] ∧
    find_pair [(0, ⟨.TWO, .CLUB⟩), (1, ⟨.THREE, .SPADE⟩)] = none ∧
    find_pair [] = none ∧
    (∀ (i : Nat) (c : Card), find_pair [(i, c)] = none) ∧
    (∀ (i j k : Nat) (c0 c1 c2 : Card),
      c0.value = c1.value → c1.value = c2.value →
      find_pair [(i, c0), (j, c1), (k, c2)] = some [i, j]) := by
  refine ⟨by decide, by decide, by decide, ?_, ?_⟩
  · intro i c
    simp [find_pair, valueToIndices, addIndex, firstPair]
  · intro i j k c0 c1 c2 h1 h2
    have h3 : c0.value = c2.value := h1.trans h2
    simp [find_pair, valueToIndices, addIndex, firstPair, h1.symm, h3.symm,
      List.take]

/-- Witness for C8 at concrete single-element and three-of-a-kind mappings. -/
theorem find_pair_examples_witness :
    find_pair [(5, ⟨.QUEEN, .HEART⟩)] = none ∧
    find_pair [(0, ⟨.TWO, .CLUB⟩), (1, ⟨.TWO, .SPADE⟩), (2, ⟨.TWO, .HEART⟩)]
      = some [0, 1] :=
  ⟨find_pair_examples.2.2.2.1 5 ⟨.QUEEN, .HEART⟩,
   find_pair_examples.2.2.2.2 0 1 2 ⟨.TWO, .CLUB⟩ ⟨.TWO, .SPADE⟩ ⟨.TWO, .HEART⟩
     rfl rfl⟩

/-! ### C9: which pair find_pair picks -/

/-- The indices (dict keys) of the entries of `l` carrying card value `v`, in
enumeration order. -/
def indicesOf (v : CardValue) (l : List (Nat × Card)) : List Nat :=
  (l.filter (fun e => decide (e.2.value = v))).map Prod.fst

/-- Modelled from claim C9's wording, as the reference side of a refinement:
scan the mapping in enumeration order for the first entry whose card value
appears on at least two entries — that entry is the earliest first occurrence
of any duplicated value — and return the first two (lowest-enumerated)
indices carrying that value. -/
def find_pair_spec (l : List (Nat × Card)) : Option (List Nat) :=
  (l.find? (fun e => decide (1 < (indicesOf e.2.value l).length))).map
    (fun e => (indicesOf e.2.value l).take 2)

/-- The card values of `vs` with later duplicates removed: the order of first
occurrences, which is the enumeration order of the keys of a Python dict
filled by insertion. -/
def firstOccurrences : List CardValue → List CardValue
  | [] => []
  | v :: vs => v :: (firstOccurrences vs).filter (fun w => decide (w ≠ v))

theorem firstOccurrences_cons (v : CardValue) (vs : List CardValue) :
    firstOccurrences (v :: vs)
      = v :: (firstOccurrences vs).filter (fun w => decide (w ≠ v)) := rfl

theorem mem_firstOccurrences (w : CardValue) :
    ∀ vs : List CardValue, w ∈ firstOccurrences vs ↔ w ∈ vs := by
  intro vs
  induction vs with
  | nil => simp [firstOccurrences]
  | cons v t ih =>
    by_cases hw : w = v
    · subst hw
      simp [firstOccurrences]
    · simp only [firstOccurrences, List.mem_cons, List.mem_filter,
        decide_eq_true_eq]
      constructor
      · intro h
        rcases h with h | ⟨h, _⟩
        · exact absurd h hw
        · exact Or.inr (ih.mp h)
      · intro h
        rcases h with h | h
        · exact absurd h hw
        · exact Or.inr ⟨ih.mpr h, hw⟩

theorem firstOccurrences_nodup :
    ∀ vs : List CardValue, (firstOccurrences vs).Nodup := by
  intro vs
  induction vs with
  | nil => simp [firstOccurrences]
  | cons v t ih =>
    refine List.Nodup.cons ?_ (List.Nodup.filter _ ih)
    intro hmem
    rcases List.mem_filter.mp hmem with ⟨_, hne⟩
    exact (decide_eq_true_eq.mp hne) rfl

theorem find?_filter_ne {α : Type} [DecidableEq α] (p : α → Bool) (w : α)
    (hw : p w = false) :
    ∀ ks : List α, (ks.filter (fun x => decide (x ≠ w))).find? p = ks.find? p := by
  intro ks
  induction ks with
  | nil => rfl
  | cons k t ih =>
    rw [List.filter_cons]
    by_cases hk : k = w
    · subst hk
      rw [if_neg (by simp), List.find?_cons_of_neg _ (by simp [hw])]
      exact ih
    · rw [if_pos (by simp [hk])]
      cases hpk : p k with
      | true =>
        rw [List.find?_cons_of_pos _ hpk, List.find?_cons_of_pos _ hpk]
      | false =>
        rw [List.find?_cons_of_neg _ (by simp [hpk]),
          List.find?_cons_of_neg _ (by simp [hpk])]
        exact ih

theorem find?_firstOccurrences (p : CardValue → Bool) :
    ∀ vs : List CardValue, (firstOccurrences vs).find? p = vs.find? p := by
  intro vs
  induction vs with
  | nil => rfl
  | cons v t ih =>
    cases hp : p v with
    | true => simp [firstOccurrences, List.find?_cons, hp]
    | false =>
      simp only [firstOccurrences]
      rw [List.find?_cons, hp, List.find?_cons, hp, ← ih]
      exact find?_filter_ne p v hp (firstOccurrences t)

theorem firstOccurrences_concat (v : CardValue) :
    ∀ vs : List CardValue,
      firstOccurrences (vs ++ [v])
        = if v ∈ vs then firstOccurrences vs else firstOccurrences vs ++ [v] := by
  intro vs
  induction vs with
  | nil => simp [firstOccurrences]
  | cons w t ih =>
    rw [List.cons_append, firstOccurrences_cons, ih, firstOccurrences_cons]
    by_cases hv : v ∈ t
    · rw [if_pos hv, if_pos (List.mem_cons_of_mem w hv)]
    · by_cases hvw : v = w
      · subst hvw
        rw [if_neg hv, if_pos (List.mem_cons_self v t), List.filter_append]
        have h1 : List.filter (fun w => decide (w ≠ v)) [v] = [] := by simp
        rw [h1, List.append_nil]
      · have hv2 : v ∉ w :: t := by
          intro h
          rcases List.mem_cons.mp h with h | h
          · exact hvw h
          · exact hv h
        rw [if_neg hv, if_neg hv2, List.filter_append]
        have h1 : List.filter (fun x => decide (x ≠ w)) [v] = [v] := by
          simp [hvw]
        rw [h1, List.cons_append]

theorem indicesOf_concat (v : CardValue) (l : List (Nat × Card)) (i : Nat)
    (c : Card) :
    indicesOf v (l ++ [(i, c)])
      = indicesOf v l ++ (if c.value = v then [i] else []) := by
  unfold indicesOf
  rw [List.filter_append, List.map_append]
  by_cases h : c.value = v
  · simp [h]
  · simp [h]

theorem indicesOf_nil_of_not_mem (v : CardValue) (l : List (Nat × Card))
    (h : v ∉ l.map (fun e => e.2.value)) : indicesOf v l = [] := by
  unfold indicesOf
  have : l.filter (fun e => decide (e.2.value = v)) = [] := by
    rw [List.filter_eq_nil]
    intro e he hev
    exact h (List.mem_map.mpr ⟨e, he, decide_eq_true_eq.mp hev⟩)
  rw [this, List.map_nil]

theorem addIndex_map_mem (g : CardValue → List Nat) (v : CardValue) (i : Nat) :
    ∀ ks : List CardValue, ks.Nodup → v ∈ ks →
      addIndex (ks.map (fun w => (w, g w))) v i
        = ks.map (fun w => (w, g w ++ if w = v then [i] else [])) := by
  intro ks
  induction ks with
  | nil => intro _ hv; simp at hv
  | cons k t ih =>
    intro hnd hv
    rcases List.nodup_cons.mp hnd with ⟨hk, hndt⟩
    by_cases hkv : k = v
    · subst hkv
      have htail : t.map (fun w => (w, g w ++ if w = k then [i] else []))
          = t.map (fun w => (w, g w)) := by
        apply List.map_congr_left
        intro w hw
        have hwk : w ≠ k := fun h => hk (h ▸ hw)
        simp [hwk]
      simp [addIndex, htail]
    · have hvt : v ∈ t := by
        rcases List.mem_cons.mp hv with h | h
        · exact absurd h.symm hkv
        · exact h
      simp only [List.map_cons, addIndex, if_neg hkv, ih hndt hvt]
      have hkv2 : ¬ (k = v) := hkv
      simp [hkv2]

theorem addIndex_map_not_mem (g : CardValue → List Nat) (v : CardValue)
    (i : Nat) :
    ∀ ks : List CardValue, v ∉ ks →
      addIndex (ks.map (fun w => (w, g w))) v i
        = ks.map (fun w => (w, g w)) ++ [(v, [i])] := by
  intro ks
  induction ks with
  | nil => intro _; rfl
  | cons k t ih =>
    intro hv
    have hkv : ¬ (k = v) := fun h => hv (h ▸ List.mem_cons_self k t)
    have hvt : v ∉ t := fun h => hv (List.mem_cons_of_mem k h)
    simp only [List.map_cons, addIndex, if_neg hkv, ih hvt, List.cons_append]

theorem valueToIndices_concat (l : List (Nat × Card)) (e : Nat × Card) :
    valueToIndices (l ++ [e]) = addIndex (valueToIndices l) e.2.value e.1 := by
  unfold valueToIndices
  rw [List.foldl_append]
  rfl

theorem valueToIndices_eq (l : List (Nat × Card)) :
    valueToIndices l
      = (firstOccurrences (l.map (fun e => e.2.value))).map
          (fun v => (v, indicesOf v l)) := by
  induction l using List.reverseRecOn with
  | nil => rfl
  | append_singleton l e ih =>
    obtain ⟨i, c⟩ := e
    rw [valueToIndices_concat, ih, List.map_append]
    simp only [List.map_cons, List.map_nil]
    rw [firstOccurrences_concat]
    by_cases hm : c.value ∈ l.map (fun e => e.2.value)
    · rw [if_pos hm]
      have hm2 : c.value ∈ firstOccurrences (l.map (fun e => e.2.value)) :=
        (mem_firstOccurrences _ _).mpr hm
      rw [addIndex_map_mem _ _ _ _ (firstOccurrences_nodup _) hm2]
      apply List.map_congr_left
      intro w hw
      rw [indicesOf_concat]
      by_cases hwv : w = c.value
      · simp [hwv]
      · have : ¬ (c.value = w) := fun h => hwv h.symm
        simp [hwv, this]
    · rw [if_neg hm]
      rw [addIndex_map_not_mem _ _ _ _
        (fun h => hm ((mem_firstOccurrences _ _).mp h))]
      rw [List.map_append]
      congr 1
      · apply List.map_congr_left
        intro w hw
        have hwm : w ∈ l.map (fun e => e.2.value) :=
          (mem_firstOccurrences _ _).mp hw
        have hwv : ¬ (c.value = w) := fun h => hm (h ▸ hwm)
        rw [indicesOf_concat]
        simp [hwv]
      · simp only [List.map_cons, List.map_nil]
        rw [indicesOf_concat, indicesOf_nil_of_not_mem _ _ hm]
        simp

theorem firstPair_map (g : CardValue → List Nat) :
    ∀ ks : List CardValue,
      firstPair (ks.map (fun w => (w, g w)))
        = (ks.find? (fun w => decide (1 < (g w).length))).map
            (fun w => (g w).take 2) := by
  intro ks
  induction ks with
  | nil => rfl
  | cons k t ih =>
    simp only [List.map_cons, firstPair, List.find?_cons]
    by_cases h : 1 < (g k).length
    · simp [h]
    · simp only [if_neg h, ih]
      have : (decide (1 < (g k).length)) = false := by
        simp [h]
      rw [this]

/-- Refinement: the source's `find_pair` agrees everywhere with the
claim-side description `find_pair_spec`. -/
theorem find_pair_eq_spec (l : List (Nat × Card)) :
    find_pair l = find_pair_spec l := by
  unfold find_pair find_pair_spec
  rw [valueToIndices_eq, firstPair_map,
    find?_firstOccurrences, List.find?_map, Option.map_map]
  rfl

/-- Claim C9: when several distinct values are each duplicated among the
visible cards, `find_pair` returns the first two indices of the value whose
FIRST occurrence comes earliest in enumeration order (the behaviour described
by `find_pair_spec`), not the pair that completes earliest: on
`{0: TWO CLUB, 1: THREE SPADE, 2: THREE HEART, 3: TWO SPADE}` it yields
`[0, 3]`, not `[1, 2]`. -/
theorem find_pair_picks_earliest_first_occurrence :
    (∀ l : List (Nat × Card), find_pair l = find_pair_spec l) ∧
    find_pair [(0, ⟨.TWO, .CLUB⟩), (1, ⟨.THREE, .SPADE⟩),
      (2, ⟨.THREE, .HEART⟩), (3, ⟨.TWO, .SPADE⟩)] = some [0, 3] ∧
    find_pair [(0, ⟨.TWO, .CLUB⟩), (1, ⟨.THREE, .SPADE⟩),
      (2, ⟨.THREE, .HEART⟩), (3, ⟨.TWO, .SPADE⟩)] ≠ some [1, 2] :=
  ⟨find_pair_eq_spec, by decide, by decide⟩

end Snap
